import Mathlib

/-!
Verification of the embedded-records transform of
`packages/activemodel-adapter/lib/system/embedded_records_mixin.js`.

The JavaScript payloads are embedded as `JVal` values (objects are ordered
association lists, mirroring JS insertion-ordered object keys, with
in-place update on existing keys).  The mixin's two passes are embedded as
pure state-passing functions:

* outbound: `serializeHasMany` / `createClientId` (source lines 61-94);
* inbound: `updatePayloadWithEmbedded` (source lines 129-186), written with
  an explicit `fuel` parameter to express the source's recursion on nested
  payload data, plus the loop helpers `relsLoop` / `relStep` / `itemsLoop`
  that correspond to `type.eachRelationship(...)` and the inner
  `forEach(partial[attribute], ...)`.

The per-serializer mutable `clientIdMap` and the entity store are carried in
explicit state (`NState`); serializers are looked up by type key as in
`store.serializerFor`.
-/

namespace EmberData

/-- JavaScript values appearing in payloads.  `undef` stands for
`undefined` (including reads of absent object fields). -/
inductive JVal where
  | undef : JVal
  | bool  : Bool → JVal
  | str   : String → JVal
  | arr   : List JVal → JVal
  | obj   : List (String × JVal) → JVal
deriving Repr, Inhabited

/-- Lookup in an ordered association list (JS object property read). -/
def alistGet {α : Type} : List (String × α) → String → Option α
  | [], _ => none
  | (k1, v) :: rest, k => if k1 = k then some v else alistGet rest k

/-- JS object property write: replace the first binding in place if the key
exists, otherwise append the binding at the end (insertion order). -/
def alistSet {α : Type} : List (String × α) → String → α → List (String × α)
  | [], k, v => [(k, v)]
  | (k1, w) :: rest, k, v =>
    if k1 = k then (k1, v) :: rest else (k1, w) :: alistSet rest k v

/-- JS `delete obj[k]`: remove the binding(s) for `k`. -/
def alistDel {α : Type} : List (String × α) → String → List (String × α)
  | [], _ => []
  | (k1, w) :: rest, k =>
    if k1 = k then alistDel rest k else (k1, w) :: alistDel rest k

/-- JS truthiness of a value (`undefined`, `false` and `""` are falsy;
arrays and objects are always truthy). -/
def truthy : JVal → Bool
  | JVal.undef => false
  | JVal.bool b => b
  | JVal.str s => !s.isEmpty
  | JVal.arr _ => true
  | JVal.obj _ => true

/-- Property read on a value: `v[k]`, yielding `undefined` when the field is
absent or `v` is not an object. -/
def getV : JVal → String → JVal
  | JVal.obj n, k => (alistGet n k).getD JVal.undef
  | _, _ => JVal.undef

/-- Property write on a value (no-op on non-objects). -/
def setV : JVal → String → JVal → JVal
  | JVal.obj n, k, v => JVal.obj (alistSet n k v)
  | j, _, _ => j

/-- Property delete on a value (no-op on non-objects). -/
def delV : JVal → String → JVal
  | JVal.obj n, k => JVal.obj (alistDel n k)
  | j, _ => j

/-- The fields of an object value (empty for non-objects). -/
def objFields : JVal → List (String × JVal)
  | JVal.obj n => n
  | _ => []

/-- A relationship descriptor as seen by `type.eachRelationship`:
its key, its kind (the mixin only acts on `"hasMany"`), and the target
type's key (`relationship.type.typeKey`). -/
structure Rel where
  key : String
  kind : String
  typeKey : String
deriving Repr

/-- A model type: its type key and its relationship descriptors, in
`eachRelationship` iteration order. -/
structure ModelType where
  typeKey : String
  rels : List Rel
deriving Repr

/-- The static configuration of one serializer: its `attrs` option mapping
a relationship key to its `embedded` policy string (absent `attrs` is
`none`, mirroring the `if (!attrs) return;` check), the `clientIdKey` and
`primaryKey` properties, and the key-casing collaborators
`keyForAttribute` / `keyForRelationship`. -/
structure SerializerCfg where
  attrs : Option (List (String × String))
  clientIdKey : String
  primaryKey : String
  keyForAttribute : String → String
  keyForRelationship : String → String → String

/-- The collaborators reachable from the store: `modelFor`,
`serializerFor` (both keyed by type key) and the `Ember.String.pluralize`
inflector. -/
structure Env where
  modelFor : String → ModelType
  serializerFor : String → SerializerCfg
  pluralize : String → String

/-- An in-memory record: its `Ember.guidFor` identity, the value of its
primary-key attribute (`get(relation, primaryKey)`), and the fields
produced by its delegated base serialization `relation.serialize()`,
doubling as its in-memory data. -/
structure Record where
  guid : String
  idVal : JVal
  fields : List (String × JVal)
deriving Repr

/-- One serializer's `clientIdMap`: client id ↦ guid of the referenced
record (the source stores the record object itself; records are identified
here by their guid). -/
abbrev ClientMap := List (String × String)

/-- The `clientIdMap`s of all serializers, keyed by the serializer's type
key. -/
abbrev Maps := List (String × ClientMap)

def mapsGet (ms : Maps) (serKey : String) : ClientMap :=
  (alistGet ms serKey).getD []

def mapsSet (ms : Maps) (serKey : String) (m : ClientMap) : Maps :=
  alistSet ms serKey m

/-- The mutable state threaded through the inbound pass: the top-level
payload object (which receives the sideload buckets), the serializers'
`clientIdMap`s, and the entity store's records. -/
structure NState where
  payload : List (String × JVal)
  maps : Maps
  store : List Record
deriving Repr

/-- Modelled from the spec: the entity store's "apply server data to
existing unpersisted entity" operation (`store.didSaveRecord(record, data)`
together with `record.adapterWillCommit()`, source lines 173-174; the store
itself is not under `src/`).  Per spec section 4.1 step 2b and section 6
collaborator (4), the child's server-provided fields are merged into the
mapped in-memory entity, whose identifier becomes the server-confirmed one. -/
def didSaveRecord (store : List Record) (guid : String)
    (data : List (String × JVal)) (primaryKey : String) : List Record :=
  store.map fun r =>
    if r.guid = guid then
      { r with
        fields := data.foldl (fun fs kv => alistSet fs kv.1 kv.2) r.fields,
        idVal := (alistGet data primaryKey).getD JVal.undef }
    else r

/-- `payload[embeddedTypeKey] = payload[embeddedTypeKey] || [];`
(source line 160). -/
def ensureBucket (payload : List (String × JVal)) (k : String) :
    List (String × JVal) :=
  match alistGet payload k with
  | some v => if truthy v then payload else alistSet payload k (JVal.arr [])
  | none => alistSet payload k (JVal.arr [])

/-- `payload[embeddedTypeKey].push(data);` (source line 178); no-op when the
bucket is not an array. -/
def bucketPush (payload : List (String × JVal)) (k : String) (v : JVal) :
    List (String × JVal) :=
  match alistGet payload k with
  | some (JVal.arr xs) => alistSet payload k (JVal.arr (xs ++ [v]))
  | _ => payload

/-- The values iterated by `forEach(partial[attribute], ...)`; non-array
values yield no iterations. -/
def asItems : JVal → List JVal
  | JVal.arr xs => xs
  | _ => []

/-- The per-relation context of the inner `forEach` loop: the parent
serializer's key (owner of the consulted `clientIdMap` — `parentSerializer`
in the source), the relationship's target type key, the parent serializer's
`clientIdKey`, the child serializer's `primaryKey`, and the sideload bucket
key `embeddedTypeKey`. -/
structure RelCtx where
  serKey : String
  childKey : String
  clientIdKey : String
  primaryKey : String
  embeddedTypeKey : String
deriving Repr

/-- The body of `forEach(partial[attribute], function(data) {...})`
(source lines 162-180).  `next` is the recursive call
`updatePayloadWithEmbedded(store, serializer, embeddedType, data, payload)`
on the child's serializer and type.  In order: recurse into the child,
push `data[primaryKey]` onto `ids`, look the child's client id up in the
parent serializer's `clientIdMap`; on a hit, apply the server data to the
mapped record and delete the map entry; on a miss, push the child into the
sideload bucket. -/
def itemsLoop (ctx : RelCtx) (next : JVal → NState → JVal × NState) :
    List JVal → List JVal → NState → List JVal × NState
  | [], ids, st => (ids, st)
  | data :: rest, ids, st =>
    let r := next data st
    let data1 := r.1
    let st1 := r.2
    let ids1 := ids ++ [getV data1 ctx.primaryKey]
    let m := mapsGet st1.maps ctx.serKey
    let hit : Option (String × String) :=
      match getV data1 ctx.clientIdKey with
      | JVal.str cid => (alistGet m cid).map (fun g => (cid, g))
      | _ => none
    let st2 :=
      match hit with
      | some p =>
        { st1 with
          store := didSaveRecord st1.store p.2 (objFields data1) ctx.primaryKey,
          maps := mapsSet st1.maps ctx.serKey (alistDel m p.1) }
      | none =>
        { st1 with payload := bucketPush st1.payload ctx.embeddedTypeKey data1 }
    itemsLoop ctx next rest ids1 st2

/-- The body of the `type.eachRelationship` callback (source lines 138-184)
for one relationship: skip non-`hasMany` kinds and relations not configured
`embedded: 'always'` or `'load'`; skip when `partial[attribute]` is falsy;
otherwise ensure the sideload bucket, run the items loop, store the id list
under `expandedKey` and delete the embedded-data field. -/
def relStep (env : Env) (next : String → String → JVal → NState → JVal × NState)
    (serKey : String) (attrs : List (String × String)) (rel : Rel)
    (part : JVal) (st : NState) : JVal × NState :=
  let cfg := env.serializerFor serKey
  let childCfg := env.serializerFor rel.typeKey
  if rel.kind = "hasMany" then
    if alistGet attrs rel.key = some "always" ∨
        alistGet attrs rel.key = some "load" then
      let embeddedTypeKey := "_" ++ env.pluralize rel.typeKey
      let expandedKey := cfg.keyForRelationship rel.key rel.kind
      let attrKey := cfg.keyForAttribute rel.key
      if truthy (getV part attrKey) then
        let st1 := { st with payload := ensureBucket st.payload embeddedTypeKey }
        let ctx : RelCtx :=
          ⟨serKey, rel.typeKey, cfg.clientIdKey, childCfg.primaryKey,
            embeddedTypeKey⟩
        let r := itemsLoop ctx (fun d s => next rel.typeKey rel.typeKey d s)
          (asItems (getV part attrKey)) [] st1
        (delV (setV part expandedKey (JVal.arr r.1)) attrKey, r.2)
      else (part, st)
    else (part, st)
  else (part, st)

/-- `type.eachRelationship(...)`: fold `relStep` over the type's
relationships, threading the partial and the state. -/
def relsLoop (env : Env) (next : String → String → JVal → NState → JVal × NState)
    (serKey : String) (attrs : List (String × String)) :
    List Rel → JVal → NState → JVal × NState
  | [], part, st => (part, st)
  | rel :: rest, part, st =>
    let r := relStep env next serKey attrs rel part st
    relsLoop env next serKey attrs rest r.1 r.2

/-- `updatePayloadWithEmbedded(store, serializer, type, partial, payload)`
(source lines 129-186).  `serKey` identifies the serializer passed in,
`typeKey` the type.  `fuel` bounds the recursion depth into nested embedded
data (the source recursion is structural on the payload tree; with
exhausted fuel the partial is returned unchanged). -/
def updatePayloadWithEmbedded (env : Env) :
    Nat → String → String → JVal → NState → JVal × NState
  | 0, _, _, part, st => (part, st)
  | fuel + 1, serKey, typeKey, part, st =>
    match (env.serializerFor serKey).attrs with
    | none => (part, st)
    | some attrs =>
      relsLoop env
        (fun sk tk d s => updatePayloadWithEmbedded env fuel sk tk d s)
        serKey attrs (env.modelFor typeKey).rels part st

/-- The inner `forEach` loop of the inbound pass with the genuine recursive
continuation, as instantiated by `relStep` inside
`updatePayloadWithEmbedded`. -/
def embedItems (env : Env) (ctx : RelCtx) (fuel : Nat) :
    List JVal → List JVal → NState → List JVal × NState :=
  itemsLoop ctx
    (fun d s => updatePayloadWithEmbedded env fuel ctx.childKey ctx.childKey d s)

/-- One relationship's inbound processing with the genuine recursive
continuation, as instantiated inside `updatePayloadWithEmbedded`. -/
def normalizeRel (env : Env) (fuel : Nat) (serKey : String)
    (attrs : List (String × String)) (rel : Rel) :
    JVal → NState → JVal × NState :=
  relStep env (fun sk tk d s => updatePayloadWithEmbedded env fuel sk tk d s)
    serKey attrs rel

/-- The pre-delegation phase of `extractSingle` (source lines 102-108):
locate the root node under `keyForAttribute(typeKey)`, run
`updatePayloadWithEmbedded` on it, and write the transformed root back into
the payload (in the source, `partial` aliases `payload[root]`, so its
mutations are visible there). -/
def extractSinglePre (env : Env) (fuel : Nat) (serKey typeKey : String)
    (st : NState) : NState :=
  let cfg := env.serializerFor serKey
  let root := cfg.keyForAttribute typeKey
  let part := (alistGet st.payload root).getD JVal.undef
  let r := updatePayloadWithEmbedded env fuel serKey typeKey part st
  { r.2 with payload := alistSet r.2.payload root r.1 }

/-- `createClientId` (source lines 61-66): `guidFor` the record, store the
record under that guid in the serializer's `clientIdMap`, return the guid. -/
def createClientId (m : ClientMap) (r : Record) : String × ClientMap :=
  (r.guid, alistSet m r.guid r.guid)

/-- The serialized form of one embedded child as produced by the `map`
callback of `serializeHasMany` (source lines 79-91): the delegated
`relation.serialize()` output plus either the truthy primary key or the
freshly created client id. -/
def serializedChild (cfg : SerializerCfg) (r : Record) : JVal :=
  if truthy r.idVal then
    JVal.obj (alistSet r.fields cfg.primaryKey r.idVal)
  else
    JVal.obj (alistSet r.fields cfg.clientIdKey (JVal.str r.guid))

/-- The `get(record, key).map(function(relation) {...})` loop of
`serializeHasMany`, threading the serializer's `clientIdMap` through the
`createClientId` calls. -/
def serializeChildren (cfg : SerializerCfg) :
    List Record → ClientMap → List JVal × ClientMap
  | [], m => ([], m)
  | r :: rest, m =>
    if truthy r.idVal then
      let tail := serializeChildren cfg rest m
      (JVal.obj (alistSet r.fields cfg.primaryKey r.idVal) :: tail.1, tail.2)
    else
      let c := createClientId m r
      let tail := serializeChildren cfg rest c.2
      (JVal.obj (alistSet r.fields cfg.clientIdKey (JVal.str c.1)) :: tail.1,
        tail.2)

/-- `attrs && attrs[key] && attrs[key].embedded === 'always'`
(source lines 75-76). -/
def embedAlways (cfg : SerializerCfg) (key : String) : Bool :=
  match cfg.attrs with
  | some attrs => decide (alistGet attrs key = some "always")
  | none => false

/-- `serializeHasMany(record, json, relationship)` (source lines 73-94).
`children` stands for `get(record, key)`, the related records in iteration
order; `m` is the serializer's `clientIdMap`.  When the relation is not
configured `embedded: 'always'` nothing at all happens (no base fallback). -/
def serializeHasMany (cfg : SerializerCfg) (children : List Record)
    (json : List (String × JVal)) (relKey : String) (m : ClientMap) :
    List (String × JVal) × ClientMap :=
  if embedAlways cfg relKey then
    let r := serializeChildren cfg children m
    (alistSet json (cfg.keyForAttribute relKey) (JVal.arr r.1), r.2)
  else (json, m)

/-- Modelled from the spec: the `Ember.String.camelize` casing collaborator
(spec section 6, collaborator (2): external-field-name transform), used by
the base per-field decode — separators are dropped, the following character
is uppercased, and the first character is lowercased. -/
def camelizeCore : List Char → Bool → List Char
  | [], _ => []
  | c :: cs, sep =>
    if c = '_' ∨ c = '-' then camelizeCore cs true
    else if sep then c.toUpper :: camelizeCore cs false
    else c :: camelizeCore cs false

def lowerFirst : List Char → List Char
  | [] => []
  | c :: cs => c.toLower :: cs

def camelize (s : String) : String :=
  String.mk (lowerFirst (camelizeCore s.data false))

/-- Modelled from the spec: the `Ember.String.decamelize` casing
collaborator (spec section 6, collaborator (2)) — an underscore is inserted
before each uppercase character, which is lowercased. -/
def decamelizeCore : List Char → List Char
  | [] => []
  | c :: cs =>
    if c.isUpper then '_' :: c.toLower :: decamelizeCore cs
    else c :: decamelizeCore cs

def decamelize (s : String) : String :=
  String.mk (decamelizeCore s.data)

/-- Modelled from the spec: the `Ember.String.pluralize` inflector for
regular nouns (append an "s"). -/
def pluralizeS (s : String) : String := s ++ "s"

/-- Modelled from the spec: the singularizing inflector for regular nouns
(drop a trailing "s"). -/
def singularizeS (s : String) : String :=
  match s.data.getLast? with
  | some c => if c = 's' then String.mk s.data.dropLast else s
  | none => s

/-- Modelled from the spec: the ActiveModel serializer's
`keyForRelationship` collaborator — hasMany keys become
`singularize(decamelize(key)) ++ "_ids"`, belongsTo keys
`decamelize(key) ++ "_id"`. -/
def amsKeyForRelationship (key kind : String) : String :=
  if kind = "hasMany" then singularizeS (decamelize key) ++ "_ids"
  else if kind = "belongsTo" then decamelize key ++ "_id"
  else decamelize key

/-- Modelled from the spec: the base (non-embedded) per-field decode of one
flat node (spec section 4.1 root entry points; the base serializer is not
under `src/`).  A field whose external name is some relationship's
`keyForRelationship` name is decoded back to the relationship key; every
other field name is camelized. -/
def normalizeNode (t : ModelType) (kfr : String → String → String) :
    JVal → JVal
  | JVal.obj n =>
    JVal.obj (n.map fun kv =>
      match t.rels.find? (fun r => kfr r.key r.kind = kv.1) with
      | some r => (r.key, kv.2)
      | none => (camelize kv.1, kv.2))
  | j => j

/-- Modelled from the spec: the `extractOne` root entry point
(spec section 4.1) — run the embedded-records pass on the root node under
the type's singular external root key, then delegate to the base per-field
decode of the resulting flat node plus ingestion of the collected sideload
buckets (every non-root top-level key), each bucket keyed by its decoded
(camelized) name and holding base-decoded child nodes. -/
def extractOneSpec (env : Env) (fuel : Nat) (serKey typeKey : String)
    (st : NState) : JVal × List (String × JVal) :=
  let cfg := env.serializerFor serKey
  let root := cfg.keyForAttribute typeKey
  let st1 := extractSinglePre env fuel serKey typeKey st
  let rootNode := normalizeNode (env.modelFor typeKey) cfg.keyForRelationship
    ((alistGet st1.payload root).getD JVal.undef)
  let sides := (st1.payload.filter fun kv => kv.1 ≠ root).map fun kv =>
    let tk := camelize (singularizeS kv.1)
    let mt := env.modelFor tk
    let scfg := env.serializerFor tk
    (camelize kv.1,
      match kv.2 with
      | JVal.arr xs => JVal.arr (xs.map (normalizeNode mt scfg.keyForRelationship))
      | j => j)
  (rootNode, sides)

/-- The `superVillain` model type of the spec's concrete scenario. -/
def svType : ModelType := ⟨"superVillain", []⟩

/-- The `homePlanet` model type of the spec's concrete scenario, with its
`villains` hasMany relationship targeting `superVillain`. -/
def hpType : ModelType := ⟨"homePlanet", [⟨"villains", "hasMany", "superVillain"⟩]⟩

/-- An ActiveModel-style serializer configuration with the given `attrs`. -/
def amsCfg (attrs : Option (List (String × String))) : SerializerCfg :=
  { attrs := attrs, clientIdKey := "_clientId", primaryKey := "id",
    keyForAttribute := decamelize, keyForRelationship := amsKeyForRelationship }

/-- The environment of the spec's concrete scenario: `villains` configured
`embedded: 'always'` on the `homePlanet` serializer. -/
def c7Env : Env :=
  { modelFor := fun t => if t = "homePlanet" then hpType else ⟨t, []⟩,
    serializerFor := fun t =>
      if t = "homePlanet" then amsCfg (some [("villains", "always")])
      else amsCfg none,
    pluralize := pluralizeS }

/-- The `comment` model type: a type embedding children of its own type. -/
def commentType : ModelType := ⟨"comment", [⟨"children", "hasMany", "comment"⟩]⟩

/-- A serializer configuration with identity attribute casing and
`key ++ "_ids"` relationship keys. -/
def plainCfg (attrs : Option (List (String × String))) : SerializerCfg :=
  { attrs := attrs, clientIdKey := "_clientId", primaryKey := "id",
    keyForAttribute := fun k => k, keyForRelationship := fun k _ => k ++ "_ids" }

/-- The environment of the same-type recursive embedding scenario:
every type is `comment` with `children` configured `embedded: 'always'`. -/
def commentEnv : Env :=
  { modelFor := fun _ => commentType,
    serializerFor := fun _ => plainCfg (some [("children", "always")]),
    pluralize := fun s => s ++ "s" }



/-- The inbound processing of one relation whose single embedded child
carries no primary-key field but a client id `"c1"` that is not a live key
of the (empty) reconciliation map. -/
def noPkRun : JVal × NState :=
  normalizeRel commentEnv 1 "comment" [("children", "always")]
    ⟨"children", "hasMany", "comment"⟩
    (JVal.obj [("children", JVal.arr [JVal.obj [("_clientId", JVal.str "c1")]])])
    ⟨[("comment", JVal.obj [])], [], []⟩


/-- The number of bindings a client map holds for a key. -/
def countKey : ClientMap → String → Nat
  | [], _ => 0
  | p :: rest, k => (if p.1 = k then 1 else 0) + countKey rest k

/-- A persisted record used as a concrete embedding input. -/
def recA : Record := ⟨"gA", JVal.str "1", [("name", JVal.str "A")]⟩

/-- An unpersisted record used as a concrete embedding input. -/
def recB : Record := ⟨"gB", JVal.undef, [("name", JVal.str "B")]⟩

/-- The flattened form of a mid-level comment node `p.1` whose embedded
children are `p.2`: the id list replaces the embedded data
(`partial[expandedKey] = ids; delete partial[attribute];`). -/
def flatC (p : List (String × JVal) × List JVal) : JVal :=
  delV (setV (JVal.obj p.1) "children_ids"
    (JVal.arr (p.2.map fun g => getV g "id"))) "children"

/-- The sideload bucket contents produced by a two-level comment tree:
for each mid-level child, its (already flat) grandchildren followed by its
own flattened node, in source order (grandchildren are sideloaded first by
the depth-first recursion). -/
def joinKids (kids : List (List (String × JVal) × List JVal)) : List JVal :=
  kids.foldr (fun p acc => p.2 ++ (flatC p :: acc)) []


/-- The two unpersisted child records of the round-trip scenario. -/
def kid1 : Record := ⟨"g1", JVal.undef, [("first_name", JVal.str "Tom")]⟩

def kid2 : Record := ⟨"g2", JVal.undef, [("first_name", JVal.str "Yehuda")]⟩

/-- The echoed response node of the round-trip scenario: the serialized
parent whose embedded children carry their placeholders plus the
server-assigned ids "7" and "9". -/
def c1EchoPart : JVal :=
  JVal.obj [("name", JVal.str "League"), ("villains", JVal.arr [
    JVal.obj [("first_name", JVal.str "Tom"), ("_clientId", JVal.str "g1"),
      ("id", JVal.str "7")],
    JVal.obj [("first_name", JVal.str "Yehuda"), ("_clientId", JVal.str "g2"),
      ("id", JVal.str "9")]])]

/-- The inbound state of the round-trip scenario, its map populated by the
outbound pass. -/
def c1State : NState := ⟨[], [("homePlanet", [("g1", "g1"), ("g2", "g2")])], []⟩

/-! ### Association-list lemmas -/

theorem alistGet_set_self {α : Type} (l : List (String × α)) (k : String) (v : α) :
    alistGet (alistSet l k v) k = some v := by
  induction l with
  | nil => simp [alistGet, alistSet]
  | cons p rest ih =>
    by_cases h : p.1 = k
    · simp [alistGet, alistSet, h]
    · simp [alistGet, alistSet, h, ih]

theorem alistGet_set_ne {α : Type} (l : List (String × α)) {k1 k : String}
    (v : α) (h : k1 ≠ k) : alistGet (alistSet l k1 v) k = alistGet l k := by
  induction l with
  | nil => simp [alistGet, alistSet, h]
  | cons p rest ih =>
    by_cases h2 : p.1 = k1
    · simp [alistGet, alistSet, h2, h]
    · simp only [alistSet, h2, if_false]
      by_cases h3 : p.1 = k
      · simp [alistGet, h3]
      · simp [alistGet, h3, ih]

theorem alistGet_del_ne {α : Type} (l : List (String × α)) {k1 k : String}
    (h : k1 ≠ k) : alistGet (alistDel l k1) k = alistGet l k := by
  induction l with
  | nil => simp [alistDel]
  | cons p rest ih =>
    by_cases h2 : p.1 = k1
    · have h3 : p.1 ≠ k := by rw [h2]; exact h
      simp [alistDel, alistGet, h2, h3, h, ih]
    · by_cases h3 : p.1 = k
      · simp [alistDel, alistGet, h2, h3, Ne.symm h, ih]
      · simp [alistDel, alistGet, h2, h3, ih]

theorem alistDel_not_mem {α : Type} (l : List (String × α)) {k : String}
    (h : ∀ p ∈ l, p.1 ≠ k) : alistDel l k = l := by
  induction l with
  | nil => simp [alistDel]
  | cons p rest ih =>
    have hp : p.1 ≠ k := h p (List.mem_cons_self p rest)
    simp only [alistDel, hp, if_false]
    rw [ih (fun q hq => h q (List.mem_cons_of_mem p hq))]

theorem alistSet_set_self {α : Type} (l : List (String × α)) (k : String)
    (v w : α) : alistSet (alistSet l k v) k w = alistSet l k w := by
  induction l with
  | nil => simp [alistSet]
  | cons p rest ih =>
    by_cases h : p.1 = k
    · simp [alistSet, h]
    · simp [alistSet, h, ih]

theorem alistSet_not_mem {α : Type} (l : List (String × α)) {k : String}
    (v : α) (h : ∀ p ∈ l, p.1 ≠ k) : alistSet l k v = l ++ [(k, v)] := by
  induction l with
  | nil => simp [alistSet]
  | cons p rest ih =>
    have hp : p.1 ≠ k := h p (List.mem_cons_self p rest)
    simp only [alistSet, hp, if_false, List.cons_append, List.cons.injEq,
      true_and]
    exact ih (fun q hq => h q (List.mem_cons_of_mem p hq))

/-! ### Generic facts about the inbound pass -/

theorem upwe_zero (env : Env) (sk tk : String) (part : JVal) (st : NState) :
    updatePayloadWithEmbedded env 0 sk tk part st = (part, st) := rfl

/-- `if (!attrs) { return; }` (source line 134): a serializer without an
`attrs` option never changes anything. -/
theorem upwe_attrs_none (env : Env) {sk : String}
    (h : (env.serializerFor sk).attrs = none) (fuel : Nat) (tk : String)
    (part : JVal) (st : NState) :
    updatePayloadWithEmbedded env fuel sk tk part st = (part, st) := by
  cases fuel with
  | zero => rfl
  | succ n => simp [updatePayloadWithEmbedded, h]

/-! ### Claim theorems -/

/-- Claim C8: a relation configured as embedded whose external field is
absent from the payload node (`partial[attribute]` reads `undefined`) is
skipped without error: the node and the whole state — in particular every
sideload bucket — are untouched by that relation
(`if (!partial[attribute]) { return; }`, source lines 156-158). -/
theorem c8_missing_relation_skipped (env : Env) (fuel : Nat)
    (serKey : String) (attrs : List (String × String)) (rel : Rel)
    (part : JVal) (st : NState)
    (h : getV part ((env.serializerFor serKey).keyForAttribute rel.key) =
      JVal.undef) :
    normalizeRel env fuel serKey attrs rel part st = (part, st) := by
  unfold normalizeRel relStep
  split
  · split
    · simp only [h, truthy, Bool.false_eq_true, if_false]
    · rfl
  · rfl

theorem c8_witness :
    getV (JVal.obj [("id", JVal.str "1")])
      ((commentEnv.serializerFor "comment").keyForAttribute "children") =
      JVal.undef ∧
    normalizeRel commentEnv 1 "comment" [("children", "always")]
      ⟨"children", "hasMany", "comment"⟩ (JVal.obj [("id", JVal.str "1")])
      ⟨[], [], []⟩ = (JVal.obj [("id", JVal.str "1")], ⟨[], [], []⟩) :=
  ⟨rfl, c8_missing_relation_skipped commentEnv 1 "comment"
    [("children", "always")] ⟨"children", "hasMany", "comment"⟩
    (JVal.obj [("id", JVal.str "1")]) ⟨[], [], []⟩ rfl⟩

/-- Claim C10: when a hasMany relation is not configured
`embedded: 'always'` (including `embedded: 'load'` or no `attrs` entry at
all), `serializeHasMany` does nothing: the outgoing json is left unchanged
(the relation field is not written — there is no fallback to the base
hasMany serialization, since the source has no else branch) and the
`clientIdMap` is untouched. -/
theorem c10_not_always_untouched (cfg : SerializerCfg)
    (children : List Record) (json : List (String × JVal)) (relKey : String)
    (m : ClientMap) (h : embedAlways cfg relKey = false) :
    serializeHasMany cfg children json relKey m = (json, m) := by
  unfold serializeHasMany
  simp [h]

theorem c10_witness :
    embedAlways (plainCfg (some [("children", "load")])) "children" = false ∧
    serializeHasMany (plainCfg (some [("children", "load")]))
      [⟨"g1", JVal.undef, []⟩] [("body", JVal.str "x")] "children"
      [("c", "c")] = ([("body", JVal.str "x")], [("c", "c")]) :=
  ⟨rfl, c10_not_always_untouched (plainCfg (some [("children", "load")]))
    [⟨"g1", JVal.undef, []⟩] [("body", JVal.str "x")] "children"
    [("c", "c")] rfl⟩

/-- Claim C7 (spec concrete scenario): normalizing
`{ home_planet: { id: "1", name: "Umber", villains: [{ id: "1",
first_name: "Tom" }] } }` with `villains` embedded-always yields the root
`{ id: "1", name: "Umber", villains: ["1"] }` plus the sideload bucket
`superVillains` holding `[{ id: "1", firstName: "Tom" }]`. -/
theorem c7_concrete_scenario :
    extractOneSpec c7Env 2 "homePlanet" "homePlanet"
      ⟨[("home_planet", JVal.obj [("id", JVal.str "1"),
          ("name", JVal.str "Umber"),
          ("villains", JVal.arr [JVal.obj [("id", JVal.str "1"),
            ("first_name", JVal.str "Tom")]])])], [], []⟩ =
      (JVal.obj [("id", JVal.str "1"), ("name", JVal.str "Umber"),
        ("villains", JVal.arr [JVal.str "1"])],
       [("superVillains", JVal.arr [JVal.obj [("id", JVal.str "1"),
         ("firstName", JVal.str "Tom")]])]) := rfl


/-- Claim C2: a child node whose client-placeholder value is a live key of
the reconciliation map is treated as a save confirmation (source lines
168-176): the child's server-provided fields are applied to the mapped
in-memory entity, the map entry is deleted, the child is not appended to
any sideload bucket (the payload is untouched), and its identifier
`data[primaryKey]` is still recorded in the relation's id list.  The
hypothesis that the child's serializer has no `attrs` makes the recursive
descent into the child a no-op, so the child node is inspected as given. -/
theorem c2_save_confirmation (env : Env) (ctx : RelCtx) (fuel : Nat)
    (data : JVal) (rest ids : List JVal) (st : NState) (cid rguid : String)
    (hflat : (env.serializerFor ctx.childKey).attrs = none)
    (hcid : getV data ctx.clientIdKey = JVal.str cid)
    (hlive : alistGet (mapsGet st.maps ctx.serKey) cid = some rguid) :
    embedItems env ctx fuel (data :: rest) ids st =
      embedItems env ctx fuel rest (ids ++ [getV data ctx.primaryKey])
        { st with
          store := didSaveRecord st.store rguid (objFields data) ctx.primaryKey,
          maps := mapsSet st.maps ctx.serKey
            (alistDel (mapsGet st.maps ctx.serKey) cid) } := by
  simp only [embedItems, itemsLoop]
  rw [upwe_attrs_none env hflat]
  simp [hcid, hlive]

theorem c2_witness :
    (c7Env.serializerFor "superVillain").attrs = none ∧
    getV (JVal.obj [("_clientId", JVal.str "c1"), ("id", JVal.str "5")])
      "_clientId" = JVal.str "c1" ∧
    alistGet (mapsGet [("homePlanet", [("c1", "g1")])] "homePlanet") "c1" =
      some "g1" ∧
    embedItems c7Env ⟨"homePlanet", "superVillain", "_clientId", "id",
        "_superVillains"⟩ 1
      [JVal.obj [("_clientId", JVal.str "c1"), ("id", JVal.str "5")]] []
      ⟨[], [("homePlanet", [("c1", "g1")])], [⟨"g1", JVal.undef, []⟩]⟩ =
    embedItems c7Env ⟨"homePlanet", "superVillain", "_clientId", "id",
        "_superVillains"⟩ 1 [] [JVal.str "5"]
      ⟨[], [("homePlanet", [])],
        [⟨"g1", JVal.str "5",
          [("_clientId", JVal.str "c1"), ("id", JVal.str "5")]⟩]⟩ :=
  ⟨rfl, rfl, rfl,
    c2_save_confirmation c7Env
      ⟨"homePlanet", "superVillain", "_clientId", "id", "_superVillains"⟩ 1
      (JVal.obj [("_clientId", JVal.str "c1"), ("id", JVal.str "5")]) [] []
      ⟨[], [("homePlanet", [("c1", "g1")])], [⟨"g1", JVal.undef, []⟩]⟩
      "c1" "g1" rfl rfl rfl⟩

/-- Claim C9: a child node whose client-placeholder value has no matching
live entry in the reconciliation map is treated as an ordinary new
sideloaded child, with no error (source lines 168-179, else branch): it is
appended to the target type's sideload bucket, the map and the store are
untouched, and its identifier is recorded. -/
theorem c9_lookup_miss_sideloads (env : Env) (ctx : RelCtx) (fuel : Nat)
    (data : JVal) (rest ids : List JVal) (st : NState) (cid : String)
    (hflat : (env.serializerFor ctx.childKey).attrs = none)
    (hcid : getV data ctx.clientIdKey = JVal.str cid)
    (hmiss : alistGet (mapsGet st.maps ctx.serKey) cid = none) :
    embedItems env ctx fuel (data :: rest) ids st =
      embedItems env ctx fuel rest (ids ++ [getV data ctx.primaryKey])
        { st with payload := bucketPush st.payload ctx.embeddedTypeKey data } := by
  simp only [embedItems, itemsLoop]
  rw [upwe_attrs_none env hflat]
  simp [hcid, hmiss]

theorem c9_witness :
    (c7Env.serializerFor "superVillain").attrs = none ∧
    getV (JVal.obj [("id", JVal.str "3"), ("_clientId", JVal.str "zz")])
      "_clientId" = JVal.str "zz" ∧
    alistGet (mapsGet [("homePlanet", [("c1", "g1")])] "homePlanet") "zz" =
      none ∧
    embedItems c7Env ⟨"homePlanet", "superVillain", "_clientId", "id",
        "_superVillains"⟩ 1
      [JVal.obj [("id", JVal.str "3"), ("_clientId", JVal.str "zz")]] []
      ⟨[("_superVillains", JVal.arr [])],
        [("homePlanet", [("c1", "g1")])], []⟩ =
    embedItems c7Env ⟨"homePlanet", "superVillain", "_clientId", "id",
        "_superVillains"⟩ 1 [] [JVal.str "3"]
      ⟨[("_superVillains", JVal.arr [JVal.obj [("id", JVal.str "3"),
          ("_clientId", JVal.str "zz")]])],
        [("homePlanet", [("c1", "g1")])], []⟩ :=
  ⟨rfl, rfl, rfl,
    c9_lookup_miss_sideloads c7Env
      ⟨"homePlanet", "superVillain", "_clientId", "id", "_superVillains"⟩ 1
      (JVal.obj [("id", JVal.str "3"), ("_clientId", JVal.str "zz")]) [] []
      ⟨[("_superVillains", JVal.arr [])], [("homePlanet", [("c1", "g1")])], []⟩
      "zz" rfl rfl rfl⟩

/-- Claim C3 counterexample: a sideloaded child whose primary-key field is
absent and whose client-placeholder field is `"c1"` (with no live map
entry).  The claim states its recorded identifier is the client-placeholder
value `"c1"`; the code records `data[primaryKey]`, i.e. `undefined`
(source line 166 pushes `data[primaryKey]` unconditionally), while the
child is indeed appended to the sideload bucket. -/
theorem c3_counterexample :
    getV noPkRun.1 "children_ids" = JVal.arr [JVal.undef] ∧
    JVal.arr [JVal.undef] ≠ JVal.arr [JVal.str "c1"] ∧
    noPkRun.2.payload = [("comment", JVal.obj []),
      ("_comments", JVal.arr [JVal.obj [("_clientId", JVal.str "c1")]])] :=
  ⟨rfl, by simp, rfl⟩

/-- Claim C3 as amended: for every embedded child appended to a sideload
bucket, the identifier recorded in the relation's id list is the value of
the child's primary-key field; when that field is absent, `undefined` is
recorded — the child's client-placeholder value is never used as a
fallback. -/
theorem c3_no_placeholder_fallback (env : Env) (ctx : RelCtx) (fuel : Nat)
    (data : JVal) (rest ids : List JVal) (st : NState) (cid : String)
    (hflat : (env.serializerFor ctx.childKey).attrs = none)
    (hpk : getV data ctx.primaryKey = JVal.undef)
    (hcid : getV data ctx.clientIdKey = JVal.str cid)
    (hmiss : alistGet (mapsGet st.maps ctx.serKey) cid = none) :
    embedItems env ctx fuel (data :: rest) ids st =
      embedItems env ctx fuel rest (ids ++ [JVal.undef])
        { st with payload := bucketPush st.payload ctx.embeddedTypeKey data } := by
  simp only [embedItems, itemsLoop]
  rw [upwe_attrs_none env hflat]
  simp [hcid, hmiss, hpk]

theorem c3_witness :
    (c7Env.serializerFor "superVillain").attrs = none ∧
    getV (JVal.obj [("_clientId", JVal.str "zz")]) "id" = JVal.undef ∧
    getV (JVal.obj [("_clientId", JVal.str "zz")]) "_clientId" =
      JVal.str "zz" ∧
    alistGet (mapsGet [] "homePlanet") "zz" = none ∧
    embedItems c7Env ⟨"homePlanet", "superVillain", "_clientId", "id",
        "_superVillains"⟩ 1 [JVal.obj [("_clientId", JVal.str "zz")]] []
      ⟨[("_superVillains", JVal.arr [])], [], []⟩ =
    embedItems c7Env ⟨"homePlanet", "superVillain", "_clientId", "id",
        "_superVillains"⟩ 1 [] [JVal.undef]
      ⟨[("_superVillains", JVal.arr [JVal.obj [("_clientId", JVal.str "zz")]])],
        [], []⟩ :=
  ⟨rfl, rfl, rfl, rfl,
    c3_no_placeholder_fallback c7Env
      ⟨"homePlanet", "superVillain", "_clientId", "id", "_superVillains"⟩ 1
      (JVal.obj [("_clientId", JVal.str "zz")]) [] []
      ⟨[("_superVillains", JVal.arr [])], [], []⟩ "zz" rfl rfl rfl rfl⟩


/-- If the child serializer has no `attrs`, the recursive descent leaves
every item unchanged, so the id list collected by the `forEach` loop is the
in-order image of `data[primaryKey]` over the items — and it is collected
regardless of the reconciliation branch taken (source line 166 runs before
the branch). -/
theorem itemsLoop_fst_flat (env : Env) (ctx : RelCtx)
    (hflat : (env.serializerFor ctx.childKey).attrs = none) (fuel : Nat) :
    ∀ (items ids : List JVal) (st : NState),
    (itemsLoop ctx
      (fun d s => updatePayloadWithEmbedded env fuel ctx.childKey ctx.childKey d s)
      items ids st).1 = ids ++ items.map (fun d => getV d ctx.primaryKey) := by
  intro items
  induction items with
  | nil => intro ids st; simp [itemsLoop]
  | cons d rest ih =>
    intro ids st
    simp only [itemsLoop]
    rw [upwe_attrs_none env hflat]
    rw [ih]
    simp

theorem c6_order_preservation (env : Env) (fuel : Nat) (serKey : String)
    (attrs : List (String × String)) (rel : Rel)
    (n : List (String × JVal)) (items : List JVal) (st : NState)
    (hkind : rel.kind = "hasMany")
    (hcfg : alistGet attrs rel.key = some "always" ∨
      alistGet attrs rel.key = some "load")
    (hflat : (env.serializerFor rel.typeKey).attrs = none)
    (hitems : getV (JVal.obj n)
      ((env.serializerFor serKey).keyForAttribute rel.key) = JVal.arr items)
    (hne : (env.serializerFor serKey).keyForRelationship rel.key rel.kind ≠
      (env.serializerFor serKey).keyForAttribute rel.key) :
    getV (normalizeRel env fuel serKey attrs rel (JVal.obj n) st).1
      ((env.serializerFor serKey).keyForRelationship rel.key rel.kind) =
    JVal.arr (items.map
      (fun d => getV d (env.serializerFor rel.typeKey).primaryKey)) := by
  have hloop := itemsLoop_fst_flat env
    ⟨serKey, rel.typeKey, (env.serializerFor serKey).clientIdKey,
      (env.serializerFor rel.typeKey).primaryKey,
      "_" ++ env.pluralize rel.typeKey⟩ hflat fuel
  dsimp only at hloop
  simp only [normalizeRel, relStep, hkind, hitems, asItems, truthy,
    eq_self_iff_true, if_true]
  rw [if_pos hcfg]
  rw [hloop]
  rw [hkind] at hne
  simp only [getV, setV, delV]
  rw [alistGet_del_ne _ (Ne.symm hne), alistGet_set_self]
  simp


theorem c6_witness :
    (⟨"villains", "hasMany", "superVillain"⟩ : Rel).kind = "hasMany" ∧
    alistGet [("villains", "always")] "villains" = some "always" ∧
    (c7Env.serializerFor "superVillain").attrs = none ∧
    getV (JVal.obj [("villains", JVal.arr [JVal.obj [("id", JVal.str "1")],
        JVal.obj [("id", JVal.str "2")], JVal.obj [("id", JVal.str "3")]])])
      ((c7Env.serializerFor "homePlanet").keyForAttribute "villains") =
      JVal.arr [JVal.obj [("id", JVal.str "1")],
        JVal.obj [("id", JVal.str "2")], JVal.obj [("id", JVal.str "3")]] ∧
    getV (normalizeRel c7Env 1 "homePlanet" [("villains", "always")]
        ⟨"villains", "hasMany", "superVillain"⟩
        (JVal.obj [("villains", JVal.arr [JVal.obj [("id", JVal.str "1")],
          JVal.obj [("id", JVal.str "2")], JVal.obj [("id", JVal.str "3")]])])
        ⟨[], [], []⟩).1 "villain_ids" =
      JVal.arr [JVal.str "1", JVal.str "2", JVal.str "3"] :=
  ⟨rfl, rfl, rfl, rfl,
    c6_order_preservation c7Env 1 "homePlanet" [("villains", "always")]
      ⟨"villains", "hasMany", "superVillain"⟩
      [("villains", JVal.arr [JVal.obj [("id", JVal.str "1")],
        JVal.obj [("id", JVal.str "2")], JVal.obj [("id", JVal.str "3")]])]
      [JVal.obj [("id", JVal.str "1")], JVal.obj [("id", JVal.str "2")],
        JVal.obj [("id", JVal.str "3")]] ⟨[], [], []⟩
      rfl (Or.inl rfl) rfl rfl (by decide)⟩


theorem countKey_set_ne (m : ClientMap) {k1 k : String} (v : String)
    (h : k1 ≠ k) : countKey (alistSet m k1 v) k = countKey m k := by
  induction m with
  | nil => simp [countKey, alistSet, h]
  | cons p rest ih =>
    by_cases h2 : p.1 = k1
    · simp [countKey, alistSet, h2, h]
    · simp [countKey, alistSet, h2, ih]

theorem countKey_set_self_le_one (m : ClientMap) (k v : String)
    (h : countKey m k ≤ 1) : countKey (alistSet m k v) k = 1 := by
  induction m with
  | nil => simp [countKey, alistSet]
  | cons p rest ih =>
    by_cases h2 : p.1 = k
    · have hrest : countKey rest k = 0 := by
        simp only [countKey, h2, if_true] at h
        omega
      simp [countKey, alistSet, h2, hrest]
    · have h4 : countKey rest k ≤ 1 := by
        simp only [countKey, h2, if_false] at h
        omega
      simp [countKey, alistSet, h2, ih h4]

theorem countKey_set_le_one (m : ClientMap) (k1 k v : String)
    (h : ∀ k0, countKey m k0 ≤ 1) : countKey (alistSet m k1 v) k ≤ 1 := by
  by_cases h2 : k1 = k
  · subst h2
    rw [countKey_set_self_le_one m k1 v (h k1)]
  · rw [countKey_set_ne m v h2]
    exact h k

/-- The serialized children are the in-order image of `serializedChild`
(the per-child payload shape does not depend on the accumulated map). -/
theorem serializeChildren_fst (cfg : SerializerCfg) :
    ∀ (children : List Record) (m : ClientMap),
    (serializeChildren cfg children m).1 = children.map (serializedChild cfg) := by
  intro children
  induction children with
  | nil => intro m; simp [serializeChildren]
  | cons c rest ih =>
    intro m
    cases ht : truthy c.idVal with
    | true => simp [serializeChildren, serializedChild, ht, ih]
    | false => simp [serializeChildren, serializedChild, createClientId, ht, ih]

/-- Serializing children whose unpersisted members all have guids other
than `g` leaves the map's bindings for `g` unchanged. -/
theorem serializeChildren_snd_preserve (cfg : SerializerCfg) :
    ∀ (children : List Record) (m : ClientMap) (g : String),
    (∀ r ∈ children, truthy r.idVal = false → r.guid ≠ g) →
    alistGet (serializeChildren cfg children m).2 g = alistGet m g ∧
    countKey (serializeChildren cfg children m).2 g = countKey m g := by
  intro children
  induction children with
  | nil => intro m g _; simp [serializeChildren]
  | cons c rest ih =>
    intro m g hne
    have hrest : ∀ r ∈ rest, truthy r.idVal = false → r.guid ≠ g :=
      fun r hr => hne r (List.mem_cons_of_mem c hr)
    cases ht : truthy c.idVal with
    | true =>
      simp only [serializeChildren, ht, if_true]
      exact ih m g hrest
    | false =>
      have hcg : c.guid ≠ g := hne c (List.mem_cons_self c rest) ht
      simp only [serializeChildren, ht, Bool.false_eq_true, if_false,
        createClientId]
      have h2 := ih (alistSet m c.guid c.guid) g hrest
      rw [alistGet_set_ne m c.guid hcg] at h2
      rw [countKey_set_ne m c.guid hcg] at h2
      exact h2

/-- The reconciliation-map effect of `serializeHasMany` per child: an
unpersisted child ends with exactly one live entry (its guid bound to
itself), a persisted child's bindings are untouched. -/
theorem serializeChildren_map_facts (cfg : SerializerCfg) :
    ∀ (children : List Record) (m : ClientMap),
    (∀ k, countKey m k ≤ 1) → (children.map Record.guid).Nodup →
    ∀ r ∈ children,
      (truthy r.idVal = false →
        alistGet (serializeChildren cfg children m).2 r.guid = some r.guid ∧
        countKey (serializeChildren cfg children m).2 r.guid = 1) ∧
      (truthy r.idVal = true →
        alistGet (serializeChildren cfg children m).2 r.guid = alistGet m r.guid ∧
        countKey (serializeChildren cfg children m).2 r.guid = countKey m r.guid) := by
  intro children
  induction children with
  | nil => intro m _ _ r hr; cases hr
  | cons c rest ih =>
    intro m hm hd r hr
    rw [List.map_cons] at hd
    have hnotin : c.guid ∉ rest.map Record.guid := (List.nodup_cons.mp hd).1
    have hd2 : (rest.map Record.guid).Nodup := (List.nodup_cons.mp hd).2
    have hrestne : ∀ r2 ∈ rest, truthy r2.idVal = false → r2.guid ≠ c.guid := by
      intro r2 hr2 _ heq
      exact hnotin (heq ▸ List.mem_map_of_mem Record.guid hr2)
    rcases List.mem_cons.mp hr with rfl | hr2
    · constructor
      · intro hfalse
        simp only [serializeChildren, hfalse, Bool.false_eq_true, if_false,
          createClientId]
        have hp := serializeChildren_snd_preserve cfg rest
          (alistSet m r.guid r.guid) r.guid hrestne
        rw [alistGet_set_self] at hp
        rw [countKey_set_self_le_one m r.guid r.guid (hm r.guid)] at hp
        exact hp
      · intro htrue
        simp only [serializeChildren, htrue, if_true]
        exact serializeChildren_snd_preserve cfg rest m r.guid hrestne
    · have hgne : c.guid ≠ r.guid := by
        intro heq
        exact hnotin (heq ▸ List.mem_map_of_mem Record.guid hr2)
      cases ht : truthy c.idVal with
      | true =>
        simp only [serializeChildren, ht, if_true]
        exact ih m hm hd2 r hr2
      | false =>
        simp only [serializeChildren, ht, Bool.false_eq_true, if_false,
          createClientId]
        have hm2 : ∀ k, countKey (alistSet m c.guid c.guid) k ≤ 1 :=
          fun k => countKey_set_le_one m c.guid k c.guid hm
        have hih := ih (alistSet m c.guid c.guid) hm2 hd2 r hr2
        refine ⟨hih.1, fun htr => ?_⟩
        have h2 := hih.2 htr
        rw [alistGet_set_ne m c.guid hgne] at h2
        rw [countKey_set_ne m c.guid hgne] at h2
        exact h2

/-- Claim C4: for every child embedded outbound by `serializeHasMany`
(source lines 79-92): a child whose primary key is not truthy at embed time
is serialized with the freshly created client id attached under the
client-placeholder field (`serializedChild`, else branch) and ends with
exactly one live `clientIdMap` entry binding that placeholder to the child;
a child holding a truthy identifier is serialized with it attached under
the primary-key field, never receives a placeholder, and its map bindings
are untouched. -/
theorem c4_outbound_identity (cfg : SerializerCfg) (children : List Record)
    (json : List (String × JVal)) (relKey : String) (m0 : ClientMap)
    (hembed : embedAlways cfg relKey = true)
    (hm : ∀ k, countKey m0 k ≤ 1)
    (hg : (children.map Record.guid).Nodup) :
    (serializeHasMany cfg children json relKey m0).1 =
      alistSet json (cfg.keyForAttribute relKey)
        (JVal.arr (children.map (serializedChild cfg))) ∧
    ∀ r ∈ children,
      (truthy r.idVal = false →
        alistGet (serializeHasMany cfg children json relKey m0).2 r.guid =
          some r.guid ∧
        countKey (serializeHasMany cfg children json relKey m0).2 r.guid = 1) ∧
      (truthy r.idVal = true →
        alistGet (serializeHasMany cfg children json relKey m0).2 r.guid =
          alistGet m0 r.guid ∧
        countKey (serializeHasMany cfg children json relKey m0).2 r.guid =
          countKey m0 r.guid) := by
  constructor
  · simp [serializeHasMany, hembed, serializeChildren_fst]
  · intro r hr
    have h := serializeChildren_map_facts cfg children m0 hm hg r hr
    simpa [serializeHasMany, hembed] using h

theorem c4_witness :
    embedAlways (amsCfg (some [("villains", "always")])) "villains" = true ∧
    (∀ k, countKey [] k ≤ 1) ∧
    (([recA, recB].map Record.guid).Nodup) ∧
    ((serializeHasMany (amsCfg (some [("villains", "always")]))
        [recA, recB] [] "villains" []).1 =
      alistSet [] "villains"
        (JVal.arr ([recA, recB].map
          (serializedChild (amsCfg (some [("villains", "always")]))))) ∧
     ∀ r ∈ [recA, recB],
      (truthy r.idVal = false →
        alistGet (serializeHasMany (amsCfg (some [("villains", "always")]))
          [recA, recB] [] "villains" []).2 r.guid = some r.guid ∧
        countKey (serializeHasMany (amsCfg (some [("villains", "always")]))
          [recA, recB] [] "villains" []).2 r.guid = 1) ∧
      (truthy r.idVal = true →
        alistGet (serializeHasMany (amsCfg (some [("villains", "always")]))
          [recA, recB] [] "villains" []).2 r.guid = alistGet [] r.guid ∧
        countKey (serializeHasMany (amsCfg (some [("villains", "always")]))
          [recA, recB] [] "villains" []).2 r.guid = countKey [] r.guid)) :=
  ⟨rfl, fun k => by simp [countKey], by decide,
    c4_outbound_identity (amsCfg (some [("villains", "always")]))
      [recA, recB] [] "villains" [] rfl (fun k => by simp [countKey])
      (by decide)⟩


/-- When every child is unpersisted, the outbound pass fills the map by
folding `createClientId` over the children. -/
theorem serializeChildren_snd_unpersisted (cfg : SerializerCfg) :
    ∀ (children : List Record) (m : ClientMap),
    (∀ r ∈ children, truthy r.idVal = false) →
    (serializeChildren cfg children m).2 =
      children.foldl (fun acc r => alistSet acc r.guid r.guid) m := by
  intro children
  induction children with
  | nil => intro m _; simp [serializeChildren]
  | cons c rest ih =>
    intro m h
    have ht : truthy c.idVal = false := h c (List.mem_cons_self c rest)
    simp only [serializeChildren, ht, Bool.false_eq_true, if_false,
      createClientId, List.foldl_cons]
    exact ih (alistSet m c.guid c.guid)
      (fun r hr => h r (List.mem_cons_of_mem c hr))

/-- Folding fresh-key insertions appends the bindings in order. -/
theorem foldl_alistSet_fresh :
    ∀ (children : List Record) (m : ClientMap),
    (∀ r ∈ children, ∀ p ∈ m, p.1 ≠ r.guid) →
    (children.map Record.guid).Nodup →
    children.foldl (fun acc r => alistSet acc r.guid r.guid) m =
      m ++ children.map (fun r => (r.guid, r.guid)) := by
  intro children
  induction children with
  | nil => intro m _ _; simp
  | cons c rest ih =>
    intro m hfresh hd
    rw [List.map_cons] at hd
    have hnotin : c.guid ∉ rest.map Record.guid := (List.nodup_cons.mp hd).1
    have hd2 : (rest.map Record.guid).Nodup := (List.nodup_cons.mp hd).2
    rw [List.foldl_cons]
    rw [alistSet_not_mem m c.guid (hfresh c (List.mem_cons_self c rest))]
    rw [ih (m ++ [(c.guid, c.guid)]) ?_ hd2]
    · simp
    · intro r hr p hp
      rcases List.mem_append.mp hp with hp2 | hp2
      · exact hfresh r (List.mem_cons_of_mem c hr) p hp2
      · rcases List.mem_singleton.mp hp2 with rfl
        intro heq
        dsimp only at heq
        exact hnotin (heq.symm ▸ List.mem_map_of_mem Record.guid hr)

theorem mapsGet_set_self (ms : Maps) (k : String) (m : ClientMap) :
    mapsGet (mapsSet ms k m) k = m := by
  simp [mapsGet, mapsSet, alistGet_set_self]

theorem zipWith_congr_left {α β γ : Type} (f g : α → β → γ)
    (l : List α) (l2 : List β) (h : ∀ a ∈ l, ∀ b, f a b = g a b) :
    List.zipWith f l l2 = List.zipWith g l l2 := by
  induction l generalizing l2 with
  | nil => simp
  | cons a rest ih =>
    cases l2 with
    | nil => simp
    | cons b rest2 =>
      simp only [List.zipWith_cons_cons]
      rw [h a (List.mem_cons_self a rest) b,
        ih rest2 (fun a2 ha2 => h a2 (List.mem_cons_of_mem a ha2))]

/-- The reconciliation drain: normalizing echoed children — each carrying
its placeholder under the client-placeholder field plus a server id under
the primary-key field — records exactly the server ids, in order, and
deletes every map entry, leaving the parent serializer's map empty. -/
theorem itemsLoop_roundtrip (env : Env) (ctx : RelCtx) (fuel : Nat)
    (hflat : (env.serializerFor ctx.childKey).attrs = none)
    (hpk : ctx.primaryKey ≠ ctx.clientIdKey) :
    ∀ (children : List Record) (sids : List String) (ids : List JVal)
      (st : NState),
    sids.length = children.length →
    (children.map Record.guid).Nodup →
    mapsGet st.maps ctx.serKey = children.map (fun r => (r.guid, r.guid)) →
    (itemsLoop ctx
      (fun d s => updatePayloadWithEmbedded env fuel ctx.childKey ctx.childKey d s)
      (List.zipWith (fun r sid => JVal.obj
        (alistSet (alistSet r.fields ctx.clientIdKey (JVal.str r.guid))
          ctx.primaryKey (JVal.str sid))) children sids) ids st).1 =
      ids ++ sids.map JVal.str ∧
    mapsGet (itemsLoop ctx
      (fun d s => updatePayloadWithEmbedded env fuel ctx.childKey ctx.childKey d s)
      (List.zipWith (fun r sid => JVal.obj
        (alistSet (alistSet r.fields ctx.clientIdKey (JVal.str r.guid))
          ctx.primaryKey (JVal.str sid))) children sids) ids st).2.maps
      ctx.serKey = [] := by
  intro children
  induction children with
  | nil =>
    intro sids ids st hlen _ hmaps
    have hs : sids = [] := List.eq_nil_of_length_eq_zero (by simpa using hlen)
    subst hs
    simp [itemsLoop, hmaps]
  | cons c rest ih =>
    intro sids ids st hlen hd hmaps
    rw [List.map_cons] at hd
    have hnotin : c.guid ∉ rest.map Record.guid := (List.nodup_cons.mp hd).1
    have hd2 : (rest.map Record.guid).Nodup := (List.nodup_cons.mp hd).2
    cases sids with
    | nil => simp at hlen
    | cons s srest =>
      have hlen2 : srest.length = rest.length := by simpa using hlen
      have hgetpk : getV (JVal.obj
          (alistSet (alistSet c.fields ctx.clientIdKey (JVal.str c.guid))
            ctx.primaryKey (JVal.str s))) ctx.primaryKey = JVal.str s := by
        simp [getV, alistGet_set_self]
      have hgetcid : getV (JVal.obj
          (alistSet (alistSet c.fields ctx.clientIdKey (JVal.str c.guid))
            ctx.primaryKey (JVal.str s))) ctx.clientIdKey =
          JVal.str c.guid := by
        simp [getV, alistGet_set_ne _ _ hpk, alistGet_set_self]
      have hlook : alistGet ((c.guid, c.guid) ::
          rest.map (fun r => (r.guid, r.guid))) c.guid = some c.guid := by
        simp [alistGet]
      have hdel : alistDel ((c.guid, c.guid) ::
          rest.map (fun r => (r.guid, r.guid))) c.guid =
          rest.map (fun r => (r.guid, r.guid)) := by
        simp only [alistDel, if_pos rfl]
        refine alistDel_not_mem _ ?_
        intro p hp heq
        rcases List.mem_map.mp hp with ⟨r, hr, rfl⟩
        exact hnotin (heq ▸ List.mem_map_of_mem Record.guid hr)
      simp only [List.zipWith_cons_cons, itemsLoop]
      rw [upwe_attrs_none env hflat]
      dsimp only
      rw [hgetpk, hgetcid, hmaps, List.map_cons]
      dsimp only
      rw [hlook]
      simp only [Option.map_some']
      dsimp only [objFields]
      rw [hdel]
      have h2 := ih srest (ids ++ [JVal.str s])
        { payload := st.payload,
          maps := mapsSet st.maps ctx.serKey
            (rest.map (fun r => (r.guid, r.guid))),
          store := didSaveRecord st.store c.guid
            (alistSet (alistSet c.fields ctx.clientIdKey (JVal.str c.guid))
              ctx.primaryKey (JVal.str s)) ctx.primaryKey }
        hlen2 hd2 (mapsGet_set_self st.maps ctx.serKey _)
      simpa using h2


/-- Claim C1 (round trip): embed a relation's N unpersisted children with
`serializeHasMany` starting from an empty `clientIdMap`, echo the resulting
child payloads back with server-assigned identifiers added under the
primary-key field, and normalize.  The rewritten relation field is the
ordered list of the N server identifiers, and the parent serializer's
`clientIdMap` is empty afterwards. -/
theorem c1_round_trip (env : Env) (fuel : Nat) (serKey : String)
    (attrs : List (String × String)) (rel : Rel) (children : List Record)
    (sids : List String) (json json1 : List (String × JVal)) (m1 : ClientMap)
    (st0 : NState)
    (hattrs : (env.serializerFor serKey).attrs = some attrs)
    (halways : alistGet attrs rel.key = some "always")
    (hkind : rel.kind = "hasMany")
    (hflat : (env.serializerFor rel.typeKey).attrs = none)
    (hunper : ∀ r ∈ children, truthy r.idVal = false)
    (hnodup : (children.map Record.guid).Nodup)
    (hlen : sids.length = children.length)
    (hne : (env.serializerFor serKey).keyForRelationship rel.key rel.kind ≠
      (env.serializerFor serKey).keyForAttribute rel.key)
    (hpkcid : (env.serializerFor rel.typeKey).primaryKey ≠
      (env.serializerFor serKey).clientIdKey)
    (hout : serializeHasMany (env.serializerFor serKey) children json
      rel.key [] = (json1, m1))
    (hmaps : mapsGet st0.maps serKey = m1) :
    getV (normalizeRel env fuel serKey attrs rel
        (JVal.obj (alistSet json1
          ((env.serializerFor serKey).keyForAttribute rel.key)
          (JVal.arr (List.zipWith
            (fun d sid => setV d (env.serializerFor rel.typeKey).primaryKey
              (JVal.str sid))
            (asItems (getV (JVal.obj json1)
              ((env.serializerFor serKey).keyForAttribute rel.key)))
            sids)))) st0).1
      ((env.serializerFor serKey).keyForRelationship rel.key rel.kind) =
      JVal.arr (sids.map JVal.str) ∧
    mapsGet (normalizeRel env fuel serKey attrs rel
        (JVal.obj (alistSet json1
          ((env.serializerFor serKey).keyForAttribute rel.key)
          (JVal.arr (List.zipWith
            (fun d sid => setV d (env.serializerFor rel.typeKey).primaryKey
              (JVal.str sid))
            (asItems (getV (JVal.obj json1)
              ((env.serializerFor serKey).keyForAttribute rel.key)))
            sids)))) st0).2.maps serKey = [] := by
  have hembed : embedAlways (env.serializerFor serKey) rel.key = true := by
    simp [embedAlways, hattrs, halways]
  have hsnd := serializeChildren_snd_unpersisted (env.serializerFor serKey)
    children [] hunper
  rw [foldl_alistSet_fresh children []
    (by intro r hr p hp; cases hp) hnodup] at hsnd
  simp only [List.nil_append] at hsnd
  have hout2 : serializeHasMany (env.serializerFor serKey) children json
      rel.key [] =
      (alistSet json ((env.serializerFor serKey).keyForAttribute rel.key)
        (JVal.arr (children.map (serializedChild (env.serializerFor serKey)))),
       children.map (fun r => (r.guid, r.guid))) := by
    simp [serializeHasMany, hembed, serializeChildren_fst, hsnd]
  rw [hout2] at hout
  injection hout with hjson1 hm1
  subst hjson1
  subst hm1
  have hget1 : getV (JVal.obj (alistSet json
      ((env.serializerFor serKey).keyForAttribute rel.key)
      (JVal.arr (children.map (serializedChild (env.serializerFor serKey))))))
      ((env.serializerFor serKey).keyForAttribute rel.key) =
      JVal.arr (children.map (serializedChild (env.serializerFor serKey))) := by
    simp [getV, alistGet_set_self]
  rw [hget1]
  simp only [asItems]
  have hecho : List.zipWith
      (fun d sid => setV d (env.serializerFor rel.typeKey).primaryKey
        (JVal.str sid))
      (children.map (serializedChild (env.serializerFor serKey))) sids =
      List.zipWith (fun r sid => JVal.obj
        (alistSet (alistSet r.fields (env.serializerFor serKey).clientIdKey
          (JVal.str r.guid)) (env.serializerFor rel.typeKey).primaryKey
          (JVal.str sid))) children sids := by
    rw [List.zipWith_map_left]
    refine zipWith_congr_left _ _ children sids ?_
    intro r hr sid
    simp [serializedChild, hunper r hr, setV]
  rw [hecho]
  have hloop := itemsLoop_roundtrip env
    ⟨serKey, rel.typeKey, (env.serializerFor serKey).clientIdKey,
      (env.serializerFor rel.typeKey).primaryKey,
      "_" ++ env.pluralize rel.typeKey⟩ fuel hflat hpkcid children sids []
    { payload := ensureBucket st0.payload ("_" ++ env.pluralize rel.typeKey),
      maps := st0.maps, store := st0.store } hlen hnodup hmaps
  dsimp only at hloop
  rw [hkind] at hne
  have hget2 : getV (JVal.obj (alistSet (alistSet json
      ((env.serializerFor serKey).keyForAttribute rel.key)
      (JVal.arr (children.map (serializedChild (env.serializerFor serKey)))))
      ((env.serializerFor serKey).keyForAttribute rel.key)
      (JVal.arr (List.zipWith (fun r sid => JVal.obj
        (alistSet (alistSet r.fields (env.serializerFor serKey).clientIdKey
          (JVal.str r.guid)) (env.serializerFor rel.typeKey).primaryKey
          (JVal.str sid))) children sids))))
      ((env.serializerFor serKey).keyForAttribute rel.key) =
      JVal.arr (List.zipWith (fun r sid => JVal.obj
        (alistSet (alistSet r.fields (env.serializerFor serKey).clientIdKey
          (JVal.str r.guid)) (env.serializerFor rel.typeKey).primaryKey
          (JVal.str sid))) children sids) := by
    simp [getV, alistGet_set_self]
  simp only [normalizeRel, relStep, hkind, hget2, asItems, truthy,
    eq_self_iff_true, if_true]
  rw [if_pos (Or.inl halways)]
  constructor
  · simp only [getV, setV, delV]
    rw [alistGet_del_ne _ (Ne.symm hne), alistGet_set_self]
    rw [hloop.1]
    simp
  · rw [hloop.2]


theorem c1_witness :
    serializeHasMany (c7Env.serializerFor "homePlanet") [kid1, kid2]
      [("name", JVal.str "League")] "villains" [] =
      ([("name", JVal.str "League"), ("villains", JVal.arr [
        JVal.obj [("first_name", JVal.str "Tom"), ("_clientId", JVal.str "g1")],
        JVal.obj [("first_name", JVal.str "Yehuda"),
          ("_clientId", JVal.str "g2")]])],
       [("g1", "g1"), ("g2", "g2")]) ∧
    getV (normalizeRel c7Env 1 "homePlanet" [("villains", "always")]
        ⟨"villains", "hasMany", "superVillain"⟩ c1EchoPart c1State).1
      "villain_ids" = JVal.arr [JVal.str "7", JVal.str "9"] ∧
    mapsGet (normalizeRel c7Env 1 "homePlanet" [("villains", "always")]
        ⟨"villains", "hasMany", "superVillain"⟩ c1EchoPart c1State).2.maps
      "homePlanet" = [] :=
  ⟨rfl,
   (c1_round_trip c7Env 1 "homePlanet" [("villains", "always")]
      ⟨"villains", "hasMany", "superVillain"⟩ [kid1, kid2] ["7", "9"]
      [("name", JVal.str "League")]
      [("name", JVal.str "League"), ("villains", JVal.arr [
        JVal.obj [("first_name", JVal.str "Tom"), ("_clientId", JVal.str "g1")],
        JVal.obj [("first_name", JVal.str "Yehuda"),
          ("_clientId", JVal.str "g2")]])]
      [("g1", "g1"), ("g2", "g2")] c1State rfl rfl rfl rfl (by decide)
      (by decide) rfl (by decide) (by decide) rfl rfl).1,
   (c1_round_trip c7Env 1 "homePlanet" [("villains", "always")]
      ⟨"villains", "hasMany", "superVillain"⟩ [kid1, kid2] ["7", "9"]
      [("name", JVal.str "League")]
      [("name", JVal.str "League"), ("villains", JVal.arr [
        JVal.obj [("first_name", JVal.str "Tom"), ("_clientId", JVal.str "g1")],
        JVal.obj [("first_name", JVal.str "Yehuda"),
          ("_clientId", JVal.str "g2")]])]
      [("g1", "g1"), ("g2", "g2")] c1State rfl rfl rfl rfl (by decide)
      (by decide) rfl (by decide) (by decide) rfl rfl).2⟩


theorem alistSet_get_eq {α : Type} (l : List (String × α)) (k : String)
    (v : α) (h : alistGet l k = some v) : alistSet l k v = l := by
  induction l with
  | nil => simp [alistGet] at h
  | cons p rest ih =>
    obtain ⟨p1, p2⟩ := p
    by_cases h2 : p1 = k
    · subst h2
      simp only [alistGet, if_true, Option.some.injEq, if_pos rfl] at h
      subst h
      simp [alistSet]
    · simp only [alistGet, h2, if_false] at h
      simp [alistSet, h2, ih h]

/-- In the comment environment, a node without a `children` field is left
untouched by the inbound pass, at any fuel. -/
theorem upwe_comment_flat (fuel : Nat) (sk tk : String) (part : JVal)
    (st : NState) (h : getV part "children" = JVal.undef) :
    updatePayloadWithEmbedded commentEnv fuel sk tk part st = (part, st) := by
  cases fuel with
  | zero => rfl
  | succ f =>
    simp [updatePayloadWithEmbedded, commentEnv, plainCfg, commentType,
      relsLoop, relStep, alistGet, h, truthy]

/-- The grandchild loop of the comment scenario: flat items are pushed into
the `_comments` bucket in order, their ids collected in order; the maps and
the store stay untouched. -/
theorem itemsLoop_comment_flat (fuel : Nat) :
    ∀ (gs : List JVal) (ids : List JVal) (st : NState) (xs : List JVal),
    (∀ g ∈ gs, getV g "children" = JVal.undef) →
    st.maps = [] →
    alistGet st.payload "_comments" = some (JVal.arr xs) →
    itemsLoop ⟨"comment", "comment", "_clientId", "id", "_comments"⟩
      (fun d s => updatePayloadWithEmbedded commentEnv fuel "comment" "comment" d s)
      gs ids st =
    (ids ++ gs.map (fun g => getV g "id"),
     { st with payload := (alistSet st.payload "_comments"
        (JVal.arr (xs ++ gs))) }) := by
  intro gs
  induction gs with
  | nil =>
    intro ids st xs _ _ h3
    simp only [itemsLoop, List.map_nil, List.append_nil]
    rw [alistSet_get_eq st.payload "_comments" (JVal.arr xs) h3]
  | cons g gs ih =>
    intro ids st xs hflat hm h3
    simp only [itemsLoop]
    rw [upwe_comment_flat fuel "comment" "comment" g st
      (hflat g (List.mem_cons_self g gs))]
    dsimp only
    rw [hm]
    have hpush : bucketPush st.payload "_comments" g =
        alistSet st.payload "_comments" (JVal.arr (xs ++ [g])) := by
      simp only [bucketPush, h3]
    have hit_none : (match getV g "_clientId" with
        | JVal.str cid => (alistGet (mapsGet ([] : Maps) "comment") cid).map
            (fun g2 => (cid, g2))
        | _ => none) = (none : Option (String × String)) := by
      cases getV g "_clientId" <;> simp [mapsGet, alistGet]
    rw [hit_none]
    dsimp only
    rw [hpush]
    rw [ih (ids ++ [getV g "id"])
      { payload := (alistSet st.payload "_comments" (JVal.arr (xs ++ [g]))),
        maps := [], store := st.store } (xs ++ [g])
      (fun g2 hg2 => hflat g2 (List.mem_cons_of_mem g hg2)) rfl
      (alistGet_set_self st.payload "_comments" (JVal.arr (xs ++ [g])))]
    rw [alistSet_set_self]
    simp

/-- One mid-level comment node of the two-level tree: the inbound pass
sideloads its grandchildren (depth-first, before the node itself is pushed
by the caller) and flattens the node to `flatC`. -/
theorem upwe_comment_mid (fuel : Nat)
    (p : List (String × JVal) × List JVal) (st : NState) (xs : List JVal)
    (hch : alistGet p.1 "children" = some (JVal.arr p.2))
    (hgs : ∀ g ∈ p.2, getV g "children" = JVal.undef)
    (hm : st.maps = [])
    (h3 : alistGet st.payload "_comments" = some (JVal.arr xs)) :
    updatePayloadWithEmbedded commentEnv (fuel + 1) "comment" "comment"
      (JVal.obj p.1) st =
    (flatC p, { st with payload := (alistSet st.payload "_comments"
      (JVal.arr (xs ++ p.2))) }) := by
  have htr : getV (JVal.obj p.1) "children" = JVal.arr p.2 := by
    simp [getV, hch]
  have hbucket : ensureBucket st.payload "_comments" = st.payload := by
    simp [ensureBucket, h3, truthy]
  have hstep : updatePayloadWithEmbedded commentEnv (fuel + 1) "comment"
      "comment" (JVal.obj p.1) st =
      relsLoop commentEnv
        (fun sk tk d s => updatePayloadWithEmbedded commentEnv fuel sk tk d s)
        "comment" [("children", "always")]
        [⟨"children", "hasMany", "comment"⟩] (JVal.obj p.1) st := rfl
  have hk1 : (commentEnv.serializerFor "comment").keyForRelationship
      "children" "hasMany" = "children_ids" := rfl
  have hk2 : (commentEnv.serializerFor "comment").keyForAttribute
      "children" = "children" := rfl
  have hk3 : (commentEnv.serializerFor "comment").clientIdKey =
      "_clientId" := rfl
  have hk4 : (commentEnv.serializerFor "comment").primaryKey = "id" := rfl
  have hk5 : ("_" ++ commentEnv.pluralize "comment" : String) =
      "_comments" := rfl
  have hcfg : alistGet [("children", "always")] "children" = some "always" := by
    rfl
  rw [hstep]
  simp only [relsLoop, relStep, if_true]
  rw [if_pos (Or.inl hcfg)]
  rw [hk1, hk2, hk3, hk4, hk5, htr]
  simp only [truthy, eq_self_iff_true, if_true, asItems]
  rw [hbucket]
  rw [itemsLoop_comment_flat fuel p.2 [] _ xs hgs hm h3]
  simp [flatC]


/-- The mid-level loop of the two-level comment tree: each child's
grandchildren are sideloaded first (depth-first), then the flattened child
itself, in source order, each exactly once; ids are collected in order. -/
theorem itemsLoop_comment_mid (fuel : Nat) :
    ∀ (kids : List (List (String × JVal) × List JVal)) (ids : List JVal)
      (st : NState) (xs : List JVal),
    (∀ p ∈ kids, alistGet p.1 "children" = some (JVal.arr p.2) ∧
      alistGet p.1 "_clientId" = none ∧
      ∀ g ∈ p.2, getV g "children" = JVal.undef) →
    st.maps = [] →
    alistGet st.payload "_comments" = some (JVal.arr xs) →
    itemsLoop ⟨"comment", "comment", "_clientId", "id", "_comments"⟩
      (fun d s => updatePayloadWithEmbedded commentEnv (fuel + 1)
        "comment" "comment" d s)
      (kids.map (fun p => JVal.obj p.1)) ids st =
    (ids ++ kids.map (fun p => getV (flatC p) "id"),
     { st with payload := (alistSet st.payload "_comments"
        (JVal.arr (xs ++ joinKids kids))) }) := by
  intro kids
  induction kids with
  | nil =>
    intro ids st xs _ _ h3
    simp only [itemsLoop, List.map_nil, List.append_nil, joinKids,
      List.foldr_nil]
    rw [alistSet_get_eq st.payload "_comments" (JVal.arr xs) h3]
  | cons p rest ih =>
    intro ids st xs hk hm h3
    obtain ⟨hch, hcid, hgs⟩ := hk p (List.mem_cons_self p rest)
    simp only [List.map_cons, itemsLoop]
    rw [upwe_comment_mid fuel p st xs hch hgs hm h3]
    dsimp only
    have hcid2 : getV (flatC p) "_clientId" = JVal.undef := by
      simp only [flatC, setV, delV, getV]
      rw [alistGet_del_ne _ (by decide : ("children" : String) ≠ "_clientId"),
        alistGet_set_ne _ _
          (by decide : ("children_ids" : String) ≠ "_clientId"), hcid]
      rfl
    rw [hcid2]
    dsimp only
    have hpush : bucketPush
        (alistSet st.payload "_comments" (JVal.arr (xs ++ p.2)))
        "_comments" (flatC p) =
        alistSet st.payload "_comments"
          (JVal.arr (xs ++ p.2 ++ [flatC p])) := by
      simp only [bucketPush,
        alistGet_set_self st.payload "_comments" (JVal.arr (xs ++ p.2))]
      rw [alistSet_set_self]
    rw [hpush]
    rw [ih (ids ++ [getV (flatC p) "id"])
      { payload := (alistSet st.payload "_comments"
          (JVal.arr (xs ++ p.2 ++ [flatC p]))),
        maps := st.maps, store := st.store }
      (xs ++ p.2 ++ [flatC p])
      (fun q hq => hk q (List.mem_cons_of_mem p hq)) hm
      (alistGet_set_self st.payload "_comments"
        (JVal.arr (xs ++ p.2 ++ [flatC p])))]
    rw [alistSet_set_self]
    simp [joinKids]

/-- Claim C5 (same-type recursive embedding): normalizing a two-level tree
of nodes of one type produces sideload entries for every descendant,
exactly once per occurrence (grandchildren depth-first, before their
parent), in the underscore-prefixed bucket `_comments` — a key namespaced
by the embedded target type and distinct from the root payload's own
bucket `comment`, which still holds the flattened root. -/
theorem c5_same_type_sideloading (fuel : Nat) (n : List (String × JVal))
    (kids : List (List (String × JVal) × List JVal)) (store : List Record)
    (hroot : alistGet n "children" =
      some (JVal.arr (kids.map (fun p => JVal.obj p.1))))
    (hkids : ∀ p ∈ kids, alistGet p.1 "children" = some (JVal.arr p.2) ∧
      alistGet p.1 "_clientId" = none ∧
      ∀ g ∈ p.2, getV g "children" = JVal.undef) :
    extractSinglePre commentEnv (fuel + 1 + 1) "comment" "comment"
      ⟨[("comment", JVal.obj n)], [], store⟩ =
    ⟨[("comment", delV (setV (JVal.obj n) "children_ids"
        (JVal.arr (kids.map (fun p => getV (flatC p) "id")))) "children"),
      ("_comments", JVal.arr (joinKids kids))], [], store⟩ := by
  have htr : getV (JVal.obj n) "children" =
      JVal.arr (kids.map (fun p => JVal.obj p.1)) := by
    simp [getV, hroot]
  have hcfg : alistGet [("children", "always")] "children" = some "always" := by
    rfl
  have hk1 : (commentEnv.serializerFor "comment").keyForRelationship
      "children" "hasMany" = "children_ids" := rfl
  have hk2 : (commentEnv.serializerFor "comment").keyForAttribute
      "children" = "children" := rfl
  have hk3 : (commentEnv.serializerFor "comment").clientIdKey =
      "_clientId" := rfl
  have hk4 : (commentEnv.serializerFor "comment").primaryKey = "id" := rfl
  have hk5 : ("_" ++ commentEnv.pluralize "comment" : String) =
      "_comments" := rfl
  have hk6 : (commentEnv.serializerFor "comment").keyForAttribute
      "comment" = "comment" := rfl
  have hstep : updatePayloadWithEmbedded commentEnv (fuel + 1 + 1) "comment"
      "comment" (JVal.obj n) ⟨[("comment", JVal.obj n)], [], store⟩ =
      relsLoop commentEnv
        (fun sk tk d s =>
          updatePayloadWithEmbedded commentEnv (fuel + 1) sk tk d s)
        "comment" [("children", "always")]
        [⟨"children", "hasMany", "comment"⟩] (JVal.obj n)
        ⟨[("comment", JVal.obj n)], [], store⟩ := rfl
  have hbucket : ensureBucket
      ([("comment", JVal.obj n)] : List (String × JVal)) "_comments" =
      [("comment", JVal.obj n), ("_comments", JVal.arr [])] := by
    simp [ensureBucket, alistGet, alistSet]
  simp only [extractSinglePre, hk6]
  rw [show (alistGet
    (NState.payload ⟨[("comment", JVal.obj n)], [], store⟩)
    "comment").getD JVal.undef = JVal.obj n from rfl]
  rw [hstep]
  simp only [relsLoop, relStep, if_true]
  rw [if_pos (Or.inl hcfg)]
  rw [hk1, hk2, hk3, hk4, hk5, htr]
  simp only [truthy, eq_self_iff_true, if_true, asItems]
  rw [hbucket]
  rw [itemsLoop_comment_mid fuel kids []
    ⟨[("comment", JVal.obj n), ("_comments", JVal.arr [])], [], store⟩ []
    hkids rfl rfl]
  simp only [List.nil_append]
  rw [show alistSet
    ([("comment", JVal.obj n), ("_comments", JVal.arr [])] :
      List (String × JVal)) "_comments" (JVal.arr (joinKids kids)) =
    [("comment", JVal.obj n), ("_comments", JVal.arr (joinKids kids))] by
      simp [alistSet]]
  rw [show ∀ v : JVal, alistSet
    ([("comment", JVal.obj n), ("_comments", JVal.arr (joinKids kids))] :
      List (String × JVal)) "comment" v =
    [("comment", v), ("_comments", JVal.arr (joinKids kids))] from
      fun v => by simp [alistSet]]


theorem c5_witness :
    alistGet [("id", JVal.str "1"), ("body", JVal.str "Hello"),
        ("children", JVal.arr [
          JVal.obj [("id", JVal.str "2"), ("body", JVal.str "World"),
            ("children", JVal.arr [JVal.obj [("id", JVal.str "4"),
              ("body", JVal.str "Another")]])],
          JVal.obj [("id", JVal.str "3"), ("body", JVal.str "Foo"),
            ("children", JVal.arr [])]])] "children" =
      some (JVal.arr [
        JVal.obj [("id", JVal.str "2"), ("body", JVal.str "World"),
          ("children", JVal.arr [JVal.obj [("id", JVal.str "4"),
            ("body", JVal.str "Another")]])],
        JVal.obj [("id", JVal.str "3"), ("body", JVal.str "Foo"),
          ("children", JVal.arr [])]]) ∧
    extractSinglePre commentEnv 3 "comment" "comment"
      ⟨[("comment", JVal.obj [("id", JVal.str "1"),
        ("body", JVal.str "Hello"),
        ("children", JVal.arr [
          JVal.obj [("id", JVal.str "2"), ("body", JVal.str "World"),
            ("children", JVal.arr [JVal.obj [("id", JVal.str "4"),
              ("body", JVal.str "Another")]])],
          JVal.obj [("id", JVal.str "3"), ("body", JVal.str "Foo"),
            ("children", JVal.arr [])]])])], [], []⟩ =
    ⟨[("comment", JVal.obj [("id", JVal.str "1"),
        ("body", JVal.str "Hello"),
        ("children_ids", JVal.arr [JVal.str "2", JVal.str "3"])]),
      ("_comments", JVal.arr [
        JVal.obj [("id", JVal.str "4"), ("body", JVal.str "Another")],
        JVal.obj [("id", JVal.str "2"), ("body", JVal.str "World"),
          ("children_ids", JVal.arr [JVal.str "4"])],
        JVal.obj [("id", JVal.str "3"), ("body", JVal.str "Foo"),
          ("children_ids", JVal.arr [])]])], [], []⟩ :=
  ⟨rfl,
    c5_same_type_sideloading 1
      [("id", JVal.str "1"), ("body", JVal.str "Hello"),
        ("children", JVal.arr [
          JVal.obj [("id", JVal.str "2"), ("body", JVal.str "World"),
            ("children", JVal.arr [JVal.obj [("id", JVal.str "4"),
              ("body", JVal.str "Another")]])],
          JVal.obj [("id", JVal.str "3"), ("body", JVal.str "Foo"),
            ("children", JVal.arr [])]])]
      [([("id", JVal.str "2"), ("body", JVal.str "World"),
          ("children", JVal.arr [JVal.obj [("id", JVal.str "4"),
            ("body", JVal.str "Another")]])],
        [JVal.obj [("id", JVal.str "4"), ("body", JVal.str "Another")]]),
       ([("id", JVal.str "3"), ("body", JVal.str "Foo"),
          ("children", JVal.arr [])], [])] [] rfl
      (by
        intro p hp
        simp only [List.mem_cons, List.not_mem_nil, or_false] at hp
        rcases hp with rfl | rfl
        · refine ⟨rfl, rfl, ?_⟩
          intro g hg
          simp only [List.mem_singleton] at hg
          subst hg
          rfl
        · refine ⟨rfl, rfl, ?_⟩
          intro g hg
          cases hg)⟩

end EmberData
